import Mathlib

/-!
Shallow embedding of the lightroom-browser repository
(src/oauth_handler.py, src/lightroom_client.py).

Conventions of the embedding:
* Python `None` becomes `Option.none`; Python string falsiness
  (`if not s`) becomes an explicit emptiness test.
* Network I/O is made explicit: each operation takes the upstream
  response(s) it would receive as arguments, and operations that mutate
  instance attributes return the updated instance.  Functions also
  return the number of upstream requests they issue where a claim is
  about request counts.
* Exceptions become `Except` values.
* URL strings are treated as sequences of `Char`; the model of the
  stdlib quoting helpers is exact on ASCII and passes non-ASCII
  characters through unchanged (upstream URLs are ASCII per RFC 3986).
-/

/-- The `{` character, as used in the `while(1){}` envelope. -/
def lbrace : Char := Char.ofNat 123

/-- The `}` character, as used in the `while(1){}` envelope. -/
def rbrace : Char := Char.ofNat 125

/-- The ASCII whitespace characters matched by the regex class `\s`
(model restricted to ASCII; the source URLs and envelopes are ASCII). -/
def isSpaceRe (c : Char) : Bool :=
  c = ' ' || c = '\t' || c = '\n' || c = '\r' || c = Char.ofNat 11 || c = Char.ofNat 12

/-- Drop a maximal run of regex whitespace, as the greedy `\s*` does. -/
def dropWsL : List Char → List Char
  | [] => []
  | c :: cs => if isSpaceRe c then dropWsL cs else c :: cs

/-- Consume one expected literal character. -/
def expectChar (c : Char) : List Char → Option (List Char)
  | [] => none
  | d :: ds => if d = c then some ds else none

/-- Consume one character that may be in lower or upper case
(the regex is compiled with `re.IGNORECASE`). -/
def expectCaseChar (l u : Char) : List Char → Option (List Char)
  | [] => none
  | d :: ds => if d = l || d = u then some ds else none

/-- Anchored matcher for the regex
`while\s*\(\s*1\s*\)\s*{\s*}\s*` (IGNORECASE) from
`LightroomClient._process_json_response` (src/lightroom_client.py:52).
Returns the remainder after the match, or `none` when the text does not
start with the envelope.  Each `\s*` is followed by a distinct
non-space literal, so greedy matching is deterministic and this
straight-line matcher is exact. -/
def matchWhile1 (cs : List Char) : Option (List Char) :=
  (expectCaseChar 'w' 'W' cs).bind fun cs1 =>
  (expectCaseChar 'h' 'H' cs1).bind fun cs2 =>
  (expectCaseChar 'i' 'I' cs2).bind fun cs3 =>
  (expectCaseChar 'l' 'L' cs3).bind fun cs4 =>
  (expectCaseChar 'e' 'E' cs4).bind fun cs5 =>
  (expectChar '(' (dropWsL cs5)).bind fun cs6 =>
  (expectChar '1' (dropWsL cs6)).bind fun cs7 =>
  (expectChar ')' (dropWsL cs7)).bind fun cs8 =>
  (expectChar lbrace (dropWsL cs8)).bind fun cs9 =>
  (expectChar rbrace (dropWsL cs9)).map fun cs10 =>
  dropWsL cs10

/-- An arbitrary text matched by the envelope regex: a casing of
`while` (`w1 ... w5`), whitespace runs `s1 ... s6` between the tokens,
and the literal `(`, `1`, `)`, `{`, `}`. -/
def while1Text (w1 w2 w3 w4 w5 : Char) (s1 s2 s3 s4 s5 s6 : List Char) : List Char :=
  w1 :: w2 :: w3 :: w4 :: w5 ::
    (s1 ++ '(' :: (s2 ++ '1' :: (s3 ++ ')' :: (s4 ++ lbrace :: (s5 ++ rbrace :: s6)))))

/-- `while1_regex.sub('', response_text)`: strip the abuse-mitigation
envelope when the text starts with it (the pattern is anchored with
`^`, so `sub` removes at most this one leading occurrence). -/
def stripWhile1 (s : String) : String :=
  match matchWhile1 s.data with
  | some rest => String.mk rest
  | none => s

/-- `LightroomClient._process_json_response` (src/lightroom_client.py:34-55).
Python returns `None` for a falsy (empty) body and otherwise
`json.loads` of the stripped text.  The model returns the exact string
that is handed to `json.loads`; two equal returned strings therefore
yield the same parsed JSON object. -/
def _process_json_response (response_text : String) : Option String :=
  if response_text = "" then none
  else some (stripWhile1 response_text)

/-- Errors raised by the client (`raise Exception(...)` /
`response.raise_for_status()` in src/lightroom_client.py). -/
inductive LrError where
  /-- "Access token expired. Please re-authenticate." (on HTTP 401). -/
  | tokenExpired : LrError
  /-- `requests.HTTPError` from `raise_for_status` on a 4xx/5xx status. -/
  | httpError (status : Nat) : LrError
  /-- "Could not retrieve catalog". -/
  | noCatalog : LrError
  /-- "Could not retrieve catalog ID". -/
  | noCatalogId : LrError
deriving DecidableEq, Repr

/-- The response-handling tail of `LightroomClient._make_request`
(src/lightroom_client.py:104-115): reject 401 as token expiry, then
`raise_for_status` (which raises for 400-599), then strip the envelope
and parse.  The `Option String` result is the text handed to
`json.loads` (see `_process_json_response`). -/
def make_request_decode (status : Nat) (body : String) : Except LrError (Option String) :=
  if status = 401 then .error .tokenExpired
  else if 400 ≤ status ∧ status < 600 then .error (.httpError status)
  else .ok (_process_json_response body)

/-- The response-handling tail of `LightroomClient.get_asset_rendition`
(src/lightroom_client.py:354-361): same 401 / `raise_for_status`
treatment, then the raw bytes are returned unparsed. -/
def get_asset_rendition_decode (status : Nat) (content : List Nat) : Except LrError (List Nat) :=
  if status = 401 then .error .tokenExpired
  else if 400 ≤ status ∧ status < 600 then .error (.httpError status)
  else .ok content

/-! ## Model of the `urllib.parse` helpers used by the client -/

/-- Split a character list at the first occurrence of `c`:
`some (before, after)` when `c` occurs, else `none`. -/
def splitFirstL (c : Char) : List Char → Option (List Char × List Char)
  | [] => none
  | d :: ds =>
    if d = c then some ([], ds)
    else (splitFirstL c ds).map fun p => (d :: p.1, p.2)

/-- The characters `urllib.parse.quote` never escapes with `safe=''`
(Python's `_ALWAYS_SAFE`): ASCII letters, digits, `_`, `.`, `-`, `~`. -/
def isUrlSafe (c : Char) : Bool :=
  (48 ≤ c.toNat && c.toNat ≤ 57) || (65 ≤ c.toNat && c.toNat ≤ 90) ||
  (97 ≤ c.toNat && c.toNat ≤ 122) || c = '_' || c = '.' || c = '-' || c = '~'

/-- Upper-case hexadecimal digit for a value below 16, as `quote` emits. -/
def hexDigit (n : Nat) : Char :=
  if n < 10 then Char.ofNat (48 + n) else Char.ofNat (65 + (n - 10))

/-- Value of a hexadecimal digit character (either case), as
`urllib.parse.unquote` accepts. -/
def hexVal (c : Char) : Option Nat :=
  if 48 ≤ c.toNat ∧ c.toNat ≤ 57 then some (c.toNat - 48)
  else if 65 ≤ c.toNat ∧ c.toNat ≤ 70 then some (c.toNat - 55)
  else if 97 ≤ c.toNat ∧ c.toNat ≤ 102 then some (c.toNat - 87)
  else none

/-- `urllib.parse.quote_plus` on one character (`safe=''`): space
becomes `+`, safe characters pass through, other ASCII characters are
percent-encoded.  Model restriction: non-ASCII characters pass through
unchanged (Python would percent-encode their UTF-8 bytes; upstream URLs
are ASCII). -/
def quotePlusChar (c : Char) : List Char :=
  if c = ' ' then ['+']
  else if isUrlSafe c then [c]
  else if c.toNat < 128 then ['%', hexDigit (c.toNat / 16), hexDigit (c.toNat % 16)]
  else [c]

/-- `urllib.parse.quote_plus` with `safe=''`, as `urlencode` applies to
each key and value. -/
def quotePlus (s : String) : String :=
  String.mk (s.data.flatMap quotePlusChar)

/-- `urllib.parse.unquote_plus` on characters: `+` becomes space and
`%XX` hex escapes are decoded; a `%` not followed by two hex digits is
kept literally. -/
def unquotePlusAux : Nat → List Char → List Char
  | 0, l => l
  | _, [] => []
  | fuel + 1, c :: rest =>
    if c = '+' then ' ' :: unquotePlusAux fuel rest
    else if c = '%' then
      match rest with
      | a :: b :: rest2 =>
        match hexVal a, hexVal b with
        | some x, some y => Char.ofNat (16 * x + y) :: unquotePlusAux fuel rest2
        | _, _ => '%' :: unquotePlusAux fuel (a :: b :: rest2)
      | _ => '%' :: unquotePlusAux fuel rest
    else c :: unquotePlusAux fuel rest

/-- `urllib.parse.unquote_plus` on characters (`unquotePlusAux` with
enough fuel for the whole input). -/
def unquotePlusL (l : List Char) : List Char :=
  unquotePlusAux l.length l

/-- `urllib.parse.unquote_plus` on strings. -/
def unquotePlus (s : String) : String :=
  String.mk (unquotePlusL s.data)

/-- Split on `&`, as `urllib.parse.parse_qsl` splits the query string
(modern Python uses only `&` as separator). -/
def splitAmp : List Char → List (List Char)
  | [] => [[]]
  | c :: cs =>
    if c = '&' then [] :: splitAmp cs
    else
      match splitAmp cs with
      | [] => [[c]]
      | f :: fs => (c :: f) :: fs

/-- Join fields with `&`, as `urlencode` does. -/
def joinAmp : List (List Char) → List Char
  | [] => []
  | [f] => f
  | f :: fs => f ++ '&' :: joinAmp fs

/-- One `name=value` field of `parse_qsl` with the default
`keep_blank_values=False, strict_parsing=False`: an empty field or a
field without `=` is skipped, a field whose value part is empty is
skipped, and name and value are `unquote_plus`-decoded. -/
def parseQsField (field : List Char) : Option (String × String) :=
  match splitFirstL '=' field with
  | none => none
  | some (name, value) =>
    if value = [] then none
    else some (String.mk (unquotePlusL name), String.mk (unquotePlusL value))

/-- `urllib.parse.parse_qsl` with default arguments. -/
def parseQsl (query : String) : List (String × String) :=
  (splitAmp query.data).filterMap parseQsField

def groupPairsAux : Nat → List (String × String) → List (String × List String)
  | 0, _ => []
  | _, [] => []
  | fuel + 1, (k, v) :: rest =>
    (k, v :: (rest.filter (fun p => p.1 = k)).map Prod.snd) ::
      groupPairsAux fuel (rest.filter (fun p => p.1 ≠ k))

/-- Group the `parse_qsl` pairs by name, keys in first-occurrence order
and each key's values in query order — exactly the dict that
`urllib.parse.parse_qs` builds (`groupPairsAux` with enough fuel for
the whole input). -/
def groupPairs (ps : List (String × String)) : List (String × List String) :=
  groupPairsAux ps.length ps

/-- `urllib.parse.parse_qs` with default arguments: a dict from names
to the nonempty list of their values. -/
def parse_qs (query : String) : List (String × List String) :=
  groupPairs (parseQsl query)

/-- Python dict update `d[k] = vs`: replace the value of an existing
key in place, else append the new key at the end (insertion order). -/
def dictSet (d : List (String × List String)) (k : String) (vs : List String) :
    List (String × List String) :=
  match d with
  | [] => [(k, vs)]
  | (k0, vs0) :: rest =>
    if k0 = k then (k0, vs) :: rest else (k0, vs0) :: dictSet rest k vs

/-- Python dict lookup `d.get(k)`. -/
def dictGet (d : List (String × List String)) (k : String) : Option (List String) :=
  match d with
  | [] => none
  | (k0, vs0) :: rest => if k0 = k then some vs0 else dictGet rest k

/-- `d.get(k, [default])[0]` as the client uses it on `parse_qs`
output: the first value of the key when present.  `parse_qs` never
produces an empty value list, so the `[0]` indexing cannot fail; an
(unreachable) empty list is mapped to `none`. -/
def qsFirst (d : List (String × List String)) (k : String) : Option String :=
  (dictGet d k).bind List.head?

/-- One `key=value` field as `urlencode` emits it. -/
def urlencodeField (k v : String) : List Char :=
  (quotePlus k).data ++ '=' :: (quotePlus v).data

/-- `urllib.parse.urlencode(d, doseq=True)`: one `key=value` field per
value, keys and values `quote_plus`-quoted, fields joined by `&`, in
dict order. -/
def urlencode (d : List (String × List String)) : String :=
  String.mk (joinAmp (d.flatMap fun kv => kv.2.map fun v => urlencodeField kv.1 v))

/-- The `(name, value)` pairs a query dict stands for, in field
order — what `parse_qsl` recovers from the encoded query. -/
def flattenPairs (d : List (String × List String)) : List (String × String) :=
  d.flatMap fun kv => kv.2.map fun v => (kv.1, v)

/-- The invariant of every dict the client feeds to `urlencode`:
keys are distinct (it is a Python dict) and every key maps to a
nonempty list of nonempty values (`parse_qs` with
`keep_blank_values=False` produces exactly such dicts, and the client
only overwrites entries with singleton digit strings). -/
def wfQs (d : List (String × List String)) : Prop :=
  (d.map Prod.fst).Nodup ∧ ∀ kv ∈ d, kv.2 ≠ [] ∧ ∀ v ∈ kv.2, v ≠ ""

/-- The result of `urllib.parse.urlparse`, without the rarely-used
`params` component (the client never touches it; `urlunparse` rejoins
it into the path unchanged, so dropping it is behavior-preserving
here). -/
structure PyUrl where
  scheme : String
  netloc : String
  path : String
  query : String
  fragment : String
deriving DecidableEq, Repr

/-- Characters allowed in a URL scheme after the initial letter. -/
def isSchemeChar (c : Char) : Bool :=
  c.isAlpha || c.isDigit || c = '+' || c = '-' || c = '.'

/-- Detect and split a leading `scheme:` as CPython's `urlsplit` does:
the part before the first `:` must start with an ASCII letter and
consist of scheme characters.  Returns `(scheme, rest)`; the scheme is
lower-cased. -/
def schemeSplit (s : List Char) : String × List Char :=
  match splitFirstL ':' s with
  | none => ("", s)
  | some (before, after) =>
    match before with
    | [] => ("", s)
    | c :: _ =>
      if c.isAlpha ∧ before.all isSchemeChar then
        (String.mk (before.map Char.toLower), after)
      else ("", s)

/-- `urllib.parse.urlparse` (fragment split first, then query, then
scheme, then `//netloc`).  The lost distinction between an absent and
an empty query/fragment only matters for round-tripping a trailing `?`
or `#`, which the client never produces. -/
def urlparse (s : String) : PyUrl :=
  let (rest1, fragment) :=
    match splitFirstL '#' s.data with
    | some (b, a) => (b, a)
    | none => (s.data, [])
  let (rest2, query) :=
    match splitFirstL '?' rest1 with
    | some (b, a) => (b, a)
    | none => (rest1, [])
  let (scheme, rest3) := schemeSplit rest2
  match rest3 with
  | '/' :: '/' :: r =>
    { scheme := scheme, netloc := String.mk (r.takeWhile (fun c => c ≠ '/')),
      path := String.mk (r.dropWhile (fun c => c ≠ '/')),
      query := String.mk query, fragment := String.mk fragment }
  | r =>
    { scheme := scheme, netloc := "", path := String.mk r,
      query := String.mk query, fragment := String.mk fragment }

/-- `urllib.parse.urlunparse` (via `urlunsplit`): reassemble the
components, emitting `?` and `#` only for nonempty query/fragment. -/
def urlunparse (u : PyUrl) : String :=
  let url1 := if u.netloc ≠ "" then "//" ++ u.netloc ++ u.path else u.path
  let url2 := if u.scheme ≠ "" then u.scheme ++ ":" ++ url1 else url1
  let url3 := if u.query ≠ "" then url2 ++ "?" ++ u.query else url2
  if u.fragment ≠ "" then url3 ++ "#" ++ u.fragment else url3

/-- Replace everything after the last `/` of a base path with the
relative path, as `urljoin` merges paths.  Model restriction: RFC 3986
`.`/`..` segment normalization is omitted (the client only joins
absolute or root-relative hrefs). -/
def mergeRelPath (bpath rel : String) : String :=
  match (splitFirstL '/' bpath.data.reverse).map Prod.snd with
  | some before => String.mk (before.reverse ++ '/' :: rel.data)
  | none => rel

/-- `urllib.parse.urljoin` restricted to the http(s) cases the client
exercises: an absolute `url` wins, a `//netloc` url takes the base
scheme, a root-relative path replaces the base path, a relative path is
merged against the base path, and an empty `url` returns the base. -/
def urljoin (base url : String) : String :=
  if base = "" then url
  else if url = "" then base
  else
    let b := urlparse base
    let u := urlparse url
    if u.scheme ≠ "" ∧ u.scheme ≠ b.scheme then url
    else
      let scheme := if u.scheme ≠ "" then u.scheme else b.scheme
      if u.netloc ≠ "" then
        urlunparse ⟨scheme, u.netloc, u.path, u.query, u.fragment⟩
      else if u.path = "" then
        urlunparse ⟨scheme, b.netloc, b.path,
          if u.query ≠ "" then u.query else b.query, u.fragment⟩
      else if u.path.data.head? = some '/' then
        urlunparse ⟨scheme, b.netloc, u.path, u.query, u.fragment⟩
      else
        urlunparse ⟨scheme, b.netloc, mergeRelPath b.path u.path, u.query, u.fragment⟩

/-! ## Model of Python `int()` on strings -/

/-- Decimal value of a digit run; `none` when empty or non-digit. -/
def digitsVal : List Char → Option Nat
  | [] => none
  | [c] => if c.isDigit then some (c.toNat - 48) else none
  | c :: cs =>
    if c.isDigit then
      (digitsVal cs).map fun n => (c.toNat - 48) * 10 ^ cs.length + n
    else none

/-- Python `int(s)` on a string: surrounding whitespace is stripped, an
optional sign precedes a nonempty digit run; anything else raises
`ValueError` (`none`).  Model restriction: underscore digit grouping
and non-ASCII digits are not modeled. -/
def pyInt (s : String) : Option Int :=
  let t := (dropWsL s.data).reverse
  let t := (dropWsL t).reverse
  match t with
  | '-' :: ds => (digitsVal ds).map fun n => -(n : Int)
  | '+' :: ds => (digitsVal ds).map fun n => (n : Int)
  | ds => (digitsVal ds).map fun n => (n : Int)

/-- Decimal digits of `n`, most significant first (`fuel` bounds the
recursion; call with `fuel = n + 1`). -/
def natReprAux : Nat → Nat → List Char
  | 0, _ => []
  | fuel + 1, n =>
    if n < 10 then [Char.ofNat (48 + n)]
    else natReprAux fuel (n / 10) ++ [Char.ofNat (48 + n % 10)]

/-- Python `str()` on an integer: decimal digits with a leading `-`
for negative values. -/
def pyStr (i : Int) : String :=
  if i < 0 then String.mk ('-' :: natReprAux (i.natAbs + 1) i.natAbs)
  else String.mk (natReprAux (i.natAbs + 1) i.natAbs)

/-! ## Data model of the decoded upstream pages -/

/-- `LightroomClient.API_BASE_URL` (src/lightroom_client.py:23). -/
def API_BASE_URL : String := "https://lr.adobe.io/v2"

/-- A `links` entry such as `links['next']` — a JSON object that may
carry an `href` key (`none` models both an absent key and a `None`
value, which Python treats alike via `.get`). -/
structure LinkObj where
  href : Option String
deriving DecidableEq, Repr

/-- The `links` mapping of a page; only `next` and `prev` are ever
read.  `none` for a relation models an absent key or a falsy (empty
dict / `None`) value — Python's `links.get('next')` truthiness test
rejects exactly those. -/
structure LinksObj where
  next : Option LinkObj
  prev : Option LinkObj
deriving DecidableEq, Repr

/-- An element of `resources` on an assets page; the client reads only
`resource['asset']['id']` (and `resource['asset']` may be absent). -/
structure AssetObj where
  id : Option String
deriving DecidableEq, Repr

/-- A resource object of a page.  `payload` stands for all the keys
the pagination logic never reads. -/
structure ResV where
  asset : Option AssetObj
  payload : List (String × String)
deriving DecidableEq, Repr

/-- A decoded (JSON-parsed) upstream page:
`{ resources, links, base }`, every key optional, plus `extra` standing
for all other keys of the JSON object (used to state that the cursor
extraction reads nothing else). -/
structure PageObj where
  resources : Option (List ResV)
  links : Option LinksObj
  base : Option String
  extra : List (String × String)
deriving DecidableEq, Repr

/-- The decoded `/catalog` response: the client reads only
`catalog.get('id')`. -/
structure CatalogV where
  id : Option String
  extra : List (String × String)
deriving DecidableEq, Repr

/-- `links.get(rel) and links[rel].get('href')` — the usable href of a
link: present only when the link object exists and its href is a
nonempty (truthy) string. -/
def linkHref (l : Option LinkObj) : Option String :=
  match l with
  | none => none
  | some lk =>
    match lk.href with
    | none => none
    | some h => if h = "" then none else some h

/-- `page.get('links', {})`. -/
def pageLinks (p : PageObj) : LinksObj :=
  p.links.getD ⟨none, none⟩

/-- `page.get('base', self.API_BASE_URL)`. -/
def pageBase (p : PageObj) : String :=
  p.base.getD API_BASE_URL

/-- `page.get('resources', [])`. -/
def pageResources (p : PageObj) : List ResV :=
  p.resources.getD []

/-! ## The client instance and `get_catalog` -/

/-- The mutable attributes of a `LightroomClient` instance: only the
`catalog` memo (src/lightroom_client.py:20). -/
structure LrClient where
  catalog : Option CatalogV
deriving DecidableEq, Repr

/-- `LightroomClient.get_catalog` (src/lightroom_client.py:148-162).
`resp` is what `self._make_request(access_token, 'GET', '/catalog')`
would produce if issued (an exception, or the decoded page — `none`
for an empty body).  Returns (result, updated instance, number of
upstream requests issued). -/
def get_catalog (self : LrClient) (resp : Except LrError (Option CatalogV)) :
    Except LrError (Option CatalogV) × LrClient × Nat :=
  match self.catalog with
  | some c => (.ok (some c), self, 0)
  | none =>
    match resp with
    | .error e => (.error e, self, 1)
    | .ok v => (.ok v, { catalog := v }, 1)

/-- The catalog-resolution prelude shared by the page operations
(e.g. src/lightroom_client.py:179-184): call `get_catalog`, raise when
the catalog or its `id` is falsy, else yield the truthy id. -/
def resolveCatalogId (self : LrClient) (resp : Except LrError (Option CatalogV)) :
    Except LrError String × LrClient × Nat :=
  match get_catalog self resp with
  | (.error e, self1, n) => (.error e, self1, n)
  | (.ok none, self1, n) => (.error .noCatalog, self1, n)
  | (.ok (some c), self1, n) =>
    match c.id with
    | none => (.error .noCatalogId, self1, n)
    | some i => if i = "" then (.error .noCatalogId, self1, n) else (.ok i, self1, n)

/-! ## `get_albums_page` cursor extraction -/

/-- The next-cursor extraction of `LightroomClient.get_albums_page`
(src/lightroom_client.py:200-208): when a truthy `links.next.href`
exists, resolve it against `base` and parse the `name_after` query
parameter out of it; `'name_after' in qs and qs['name_after']`
otherwise yields `None`. -/
def next_name_after_of (page : PageObj) : Option String :=
  match linkHref (pageLinks page).next with
  | none => none
  | some href =>
    let parsed := urlparse (urljoin (pageBase page) href)
    let qs := parse_qs parsed.query
    match dictGet qs "name_after" with
    | some (v :: _) => some v
    | _ => none

/-- The response-shaping tail of `LightroomClient.get_albums_page`
(src/lightroom_client.py:191-210), given the decoded page of the
`GET .../albums` request (`none` models a falsy page: empty body).
Returns `(resources, next_name_after)`. -/
def get_albums_page_result (page : Option PageObj) : List ResV × Option String :=
  match page with
  | none => ([], none)
  | some p => (pageResources p, next_name_after_of p)

/-! ## `get_album_assets_page` link synthesis -/

/-- The `try: int(...) / except ValueError` block of
`LightroomClient.get_album_assets_page` (src/lightroom_client.py:269-274):
parse `limit` and `offset` out of the query dict (defaulting to the
requested limit and 0); if either `int()` raises, both fall back to
`(int(limit), 0)`. -/
def parseLimitOffset (qs : List (String × List String)) (limit : Int) : Int × Int :=
  let limv : Option Int :=
    match qsFirst qs "limit" with
    | some s => pyInt s
    | none => some limit
  let offv : Option Int :=
    match qsFirst qs "offset" with
    | some s => pyInt s
    | none => some 0
  match limv, offv with
  | some l, some o => (l, o)
  | _, _ => (limit, 0)

/-- The previous-URL computation of
`LightroomClient.get_album_assets_page` (src/lightroom_client.py:263-281):
tier 1 uses a truthy upstream `links.prev.href`; tier 2, entered only
when a truthy `page_url` was supplied, synthesizes a URL with
`offset = max 0 (offset - limit)` exactly when the parsed offset is
positive. -/
def computePrevUrl (limit : Int) (page_url : Option String)
    (links : LinksObj) (base : String) : Option String :=
  match linkHref links.prev with
  | some h => some (urljoin base h)
  | none =>
    match page_url with
    | none => none
    | some pu =>
      if pu = "" then none
      else
        let parsed := urlparse pu
        let qs := parse_qs parsed.query
        let lo := parseLimitOffset qs limit
        if 0 < lo.2 then
          let new_offset := max 0 (lo.2 - lo.1)
          let qs1 := dictSet qs "offset" [pyStr new_offset]
          let qs2 := dictSet qs1 "limit" [pyStr lo.1]
          let new_query := urlencode qs2
          some (urlunparse { parsed with query := new_query })
        else none

/-- The response-shaping tail of `LightroomClient.get_album_assets_page`
(src/lightroom_client.py:250-283), given the requested `limit`, the
`page_url` argument and the decoded page of the issued request.
Returns `(resources, next_url, prev_url)`. -/
def get_album_assets_page_result (limit : Int) (page_url : Option String)
    (page : Option PageObj) : List ResV × Option String × Option String :=
  match page with
  | none => ([], none, none)
  | some p =>
    let links := pageLinks p
    let base := pageBase p
    (pageResources p,
     (linkHref links.next).map fun h => urljoin base h,
     computePrevUrl limit page_url links base)

/-! ## `get_album_first_asset` -/

/-- The body of the `try` block of
`LightroomClient.get_album_first_asset` (src/lightroom_client.py:296-313):
resolve the catalog id, fetch the first-assets page (`pageResp` is what
that request would produce), and return
`resources[0].get('asset', {}).get('id')`, or `None` for an empty
album. -/
def firstAssetBody (self : LrClient) (catalogResp : Except LrError (Option CatalogV))
    (pageResp : Except LrError (Option PageObj)) :
    Except LrError (Option String) × LrClient :=
  match resolveCatalogId self catalogResp with
  | (.error e, self1, _) => (.error e, self1)
  | (.ok _, self1, _) =>
    match pageResp with
    | .error e => (.error e, self1)
    | .ok page =>
      match page with
      | none => (.ok none, self1)
      | some p =>
        match pageResources p with
        | [] => (.ok none, self1)
        | first :: _ => (.ok ((first.asset.getD ⟨none⟩).id), self1)

/-- `LightroomClient.get_album_first_asset` (src/lightroom_client.py:285-316):
the whole lookup is wrapped in `try/except Exception`, and every raised
error is swallowed into `None`.  Attribute mutations performed before
the error (the catalog memo) persist, as in Python. -/
def get_album_first_asset (self : LrClient)
    (catalogResp : Except LrError (Option CatalogV))
    (pageResp : Except LrError (Option PageObj)) : Option String × LrClient :=
  match firstAssetBody self catalogResp pageResp with
  | (.ok v, self1) => (v, self1)
  | (.error _, self1) => (none, self1)

/-! ## `_get_paged_resources` (eager page draining) -/

/-- The `while page.get('links', {}).get('next')` loop of
`LightroomClient._get_paged_resources` (src/lightroom_client.py:131-146).
`fetch` maps a request URL to the decoded response of
`self._make_request(access_token, 'GET', url)`.  `fuel` bounds the
number of iterations the model is allowed to run: the result is `none`
when the loop is still running after `fuel` fetches — so an upstream on
which every `fuel` yields `none` makes the source loop forever. -/
def drainLoop (fetch : String → Except LrError (Option PageObj)) :
    Nat → PageObj → List ResV → Option (Except LrError (List ResV))
  | fuel, page, acc =>
    match (pageLinks page).next with
    | none => some (.ok acc)
    | some lnk =>
      match lnk.href with
      | none => some (.ok acc)
      | some h =>
        if h = "" then some (.ok acc)
        else
          match fuel with
          | 0 => none
          | fuel' + 1 =>
            let next_url := urljoin (pageBase page) h
            match fetch next_url with
            | .error e => some (.error e)
            | .ok none => some (.ok acc)
            | .ok (some p2) => drainLoop fetch fuel' p2 (acc ++ pageResources p2)

/-- `LightroomClient._get_paged_resources` (src/lightroom_client.py:117-146):
initial fetch, then the draining loop.  Truthiness detail: the loop
condition tests the `next` link object, and the body separately breaks
on a falsy href — both modeled in `drainLoop`. -/
def _get_paged_resources (fetch : String → Except LrError (Option PageObj))
    (fuel : Nat) (initial_endpoint : String) : Option (Except LrError (List ResV)) :=
  match fetch initial_endpoint with
  | .error e => some (.error e)
  | .ok none => some (.ok [])
  | .ok (some p) => drainLoop fetch fuel p (pageResources p)

/-! ## The OAuth handler (src/oauth_handler.py) -/

/-- The attributes of an `OAuthHandler` instance
(src/oauth_handler.py:44-47); `state` starts as `None`. -/
structure OAuthHandler where
  client_id : String
  client_secret : String
  redirect_uri : String
  state : Option String
deriving DecidableEq, Repr

/-- Errors raised by `OAuthHandler.get_access_token`
(src/oauth_handler.py:80-137). -/
inductive OAuthError where
  /-- `ValueError("Invalid state parameter")`. -/
  | invalidState : OAuthError
  /-- `requests.HTTPError("Token exchange failed: ...")` carrying the
  upstream status (detail-string construction not modeled). -/
  | tokenExchangeFailed (status : Nat) : OAuthError
  /-- the generic `except Exception` re-wrap
  ("Unexpected error during token exchange"). -/
  | unexpectedError : OAuthError
deriving DecidableEq, Repr

/-- The parsed token JSON (`response.json()`), kept opaque as a list of
key-value pairs. -/
abbrev TokenJson := List (String × String)

/-- The token-endpoint HTTP response as `get_access_token` inspects it:
`ok` is `response.ok` (status below 400), and `jsonBody` is the result
of `response.json()` (`none` when the body is not valid JSON). -/
structure TokenResponse where
  ok : Bool
  status : Nat
  jsonBody : Option TokenJson
deriving DecidableEq, Repr

/-- Python truthiness of the optional `state` argument combined with
the inequality test: `if state and state != self.state` raises exactly
when `state` is a nonempty string that differs from the stored state
(`self.state` may be `None`, which compares unequal to any string). -/
def stateMismatch (arg stored : Option String) : Bool :=
  match arg with
  | none => false
  | some s => s ≠ "" && stored ≠ some s

/-- `OAuthHandler.get_access_token` (src/oauth_handler.py:69-137).
`resp` is the response the token endpoint would return if called.
Returns (result, instance afterwards, number of network calls made).
The method never assigns any attribute, so the instance is returned
unchanged on every path. -/
def get_access_token (self : OAuthHandler) (authorization_code : String)
    (state : Option String) (resp : TokenResponse) :
    Except OAuthError TokenJson × OAuthHandler × Nat :=
  if stateMismatch state self.state then
    (.error .invalidState, self, 0)
  else
    if resp.ok then
      match resp.jsonBody with
      | some j => (.ok j, self, 1)
      | none => (.error .unexpectedError, self, 1)
    else
      (.error (.tokenExchangeFailed resp.status), self, 1)

/-- `OAuthHandler.get_authorization_url` (src/oauth_handler.py:49-67).
`nonce` stands for the fresh `secrets.token_urlsafe(32)` value; the
method overwrites `self.state` with it and returns the authorization
URL. -/
def get_authorization_url (self : OAuthHandler) (nonce : String) :
    String × OAuthHandler :=
  let params : List (String × List String) :=
    [("client_id", [self.client_id]),
     ("redirect_uri", [self.redirect_uri]),
     ("response_type", ["code"]),
     ("scope", ["offline_access,AdobeID,lr_partner_rendition_apis,openid,lr_partner_apis"]),
     ("state", [nonce])]
  ("https://ims-na1.adobelogin.com/ims/authorize/v2?" ++ urlencode params,
   { self with state := some nonce })

/-! ## Concrete instances used in counterexamples and witnesses -/

/-- A handler holding a stored CSRF state from a pending authorization
attempt. -/
def storedHandler : OAuthHandler :=
  { client_id := "cid", client_secret := "csecret",
    redirect_uri := "https://localhost:8443/callback", state := some "stored-nonce" }

/-- A successful token-endpoint response. -/
def okTokenResponse : TokenResponse :=
  { ok := true, status := 200, jsonBody := some [("access_token", "tok")] }

/-- A freshly constructed client (no catalog memo). -/
def clientFresh : LrClient := { catalog := none }

/-- A decoded catalog object with a usable id. -/
def catalogSample : CatalogV := { id := some "cat-1", extra := [] }

/-- An albums page whose `links.next.href` carries `name_after=Zebra`,
per the spec's testable property. -/
def zebraPage : PageObj :=
  { resources := some [],
    links :=
      some ⟨some ⟨some "https://lr.adobe.io/v2/catalogs/cat-1/albums?limit=8&name_after=Zebra"⟩, none⟩,
    base := some "https://lr.adobe.io/v2", extra := [] }

/-- An albums page whose next link has no parsable `name_after`. -/
def noNameAfterPage : PageObj :=
  { resources := some [],
    links := some ⟨some ⟨some "https://lr.adobe.io/v2/catalogs/cat-1/albums?limit=8"⟩, none⟩,
    base := some "https://lr.adobe.io/v2", extra := [] }

/-- An assets page carrying neither a `prev` nor a `next` link. -/
def pageNoLinks : PageObj :=
  { resources := some [], links := none, base := none, extra := [] }

/-- An assets page URL at offset 20, as in the spec's testable
property. -/
def assetsPageUrl : String :=
  "https://lr.adobe.io/v2/catalogs/cat-1/albums/alb-1/assets?limit=20&offset=20"

/-- The same assets page URL at offset 0. -/
def assetsPageUrl0 : String :=
  "https://lr.adobe.io/v2/catalogs/cat-1/albums/alb-1/assets?limit=20&offset=0"

/-- A page whose next link points back to a fixed URL, modeling an
upstream that never terminates its next-link chain. -/
def loopPage : PageObj :=
  { resources := some [],
    links := some ⟨some ⟨some "https://lr.adobe.io/v2/loop"⟩, none⟩,
    base := none, extra := [] }

/-- An upstream returning `loopPage` for every URL: the next-link chain
repeats the identical cursor forever. -/
def loopFetch : String → Except LrError (Option PageObj) := fun _ => .ok (some loopPage)

/-- A page with no next link at all. -/
def lastPage : PageObj :=
  { resources := some [⟨some ⟨some "asset-9"⟩, []⟩], links := none, base := none, extra := [] }

/-! # Helper lemmas

## The `quote_plus` / `unquote_plus` round trip -/

theorem unquotePlusAux_nil (f : Nat) : unquotePlusAux f [] = [] := by
  cases f <;> rfl

theorem unquotePlusAux_congr :
    ∀ (f g : Nat) (l : List Char), l.length ≤ f → l.length ≤ g →
      unquotePlusAux f l = unquotePlusAux g l := by
  intro f
  induction f with
  | zero =>
    intro g l hf _
    have : l = [] := List.length_eq_zero.mp (Nat.le_zero.mp hf)
    subst this
    rw [unquotePlusAux_nil, unquotePlusAux_nil]
  | succ f ih =>
    intro g l hf hg
    cases l with
    | nil => rw [unquotePlusAux_nil, unquotePlusAux_nil]
    | cons c rest =>
      cases g with
      | zero => simp at hg
      | succ g =>
        have hf' : rest.length ≤ f := by simp only [List.length_cons] at hf; omega
        have hg' : rest.length ≤ g := by simp only [List.length_cons] at hg; omega
        by_cases h1 : c = '+'
        · subst h1
          simp [unquotePlusAux]
          exact ih g rest hf' hg'
        · by_cases h2 : c = '%'
          · subst h2
            rcases rest with _ | ⟨a, _ | ⟨b, rest2⟩⟩
            · simp [unquotePlusAux, unquotePlusAux_nil]
            · simp [unquotePlusAux]
              exact ih g [a] hf' hg'
            · simp only [List.length_cons] at hf' hg'
              rcases hx : hexVal a with _ | x <;> rcases hy : hexVal b with _ | y <;>
                simp [unquotePlusAux, hx, hy] <;>
                first
                  | exact ih g rest2 (by omega) (by omega)
                  | exact ih g (a :: b :: rest2) (by simp only [List.length_cons]; omega)
                      (by simp only [List.length_cons]; omega)
          · simp [unquotePlusAux, h1, h2]
            exact ih g rest hf' hg'

theorem unquotePlusL_cons_plus (r : List Char) :
    unquotePlusL ('+' :: r) = ' ' :: unquotePlusL r := by
  simp [unquotePlusL, unquotePlusAux]

theorem unquotePlusL_cons_other (c : Char) (r : List Char)
    (h1 : c ≠ '+') (h2 : c ≠ '%') :
    unquotePlusL (c :: r) = c :: unquotePlusL r := by
  rcases r with _ | ⟨a, _ | ⟨b, rest⟩⟩ <;>
    simp [unquotePlusL, unquotePlusAux, h1, h2]

theorem unquotePlusL_pct (a b : Char) (r : List Char) (x y : Nat)
    (ha : hexVal a = some x) (hb : hexVal b = some y) :
    unquotePlusL ('%' :: a :: b :: r) = Char.ofNat (16 * x + y) :: unquotePlusL r := by
  simp only [unquotePlusL, List.length_cons]
  simp [unquotePlusAux, ha, hb]
  rw [unquotePlusAux_congr (r.length + 1 + 1) r.length r (by omega) (Nat.le_refl _)]

theorem hexVal_hexDigit (n : Nat) (h : n < 16) : hexVal (hexDigit n) = some n := by
  interval_cases n <;> decide

theorem isUrlSafe_ne_plus {c : Char} (h : isUrlSafe c = true) : c ≠ '+' := by
  intro he; subst he; exact absurd h (by decide)

theorem isUrlSafe_ne_pct {c : Char} (h : isUrlSafe c = true) : c ≠ '%' := by
  intro he; subst he; exact absurd h (by decide)

theorem quotePlusChar_space : quotePlusChar ' ' = ['+'] := by decide

theorem quotePlusChar_safe {c : Char} (hsp : c ≠ ' ') (hsafe : isUrlSafe c = true) :
    quotePlusChar c = [c] := by
  simp [quotePlusChar, hsp, hsafe]

theorem quotePlusChar_ascii {c : Char} (hsp : c ≠ ' ') (hsafe : ¬ isUrlSafe c = true)
    (hascii : c.toNat < 128) :
    quotePlusChar c = ['%', hexDigit (c.toNat / 16), hexDigit (c.toNat % 16)] := by
  simp [quotePlusChar, hsp, hsafe, hascii]

theorem quotePlusChar_high {c : Char} (hsp : c ≠ ' ') (hsafe : ¬ isUrlSafe c = true)
    (hascii : ¬ c.toNat < 128) :
    quotePlusChar c = [c] := by
  simp [quotePlusChar, hsp, hsafe, hascii]

theorem unquotePlusL_quotePlusChar (c : Char) (r : List Char) :
    unquotePlusL (quotePlusChar c ++ r) = c :: unquotePlusL r := by
  by_cases hsp : c = ' '
  · subst hsp
    rw [quotePlusChar_space]
    exact unquotePlusL_cons_plus r
  · by_cases hsafe : isUrlSafe c
    · rw [quotePlusChar_safe hsp hsafe]
      exact unquotePlusL_cons_other c r (isUrlSafe_ne_plus hsafe) (isUrlSafe_ne_pct hsafe)
    · by_cases hascii : c.toNat < 128
      · have h16 : c.toNat / 16 < 16 := by omega
        have h16' : c.toNat % 16 < 16 := Nat.mod_lt _ (by omega)
        rw [quotePlusChar_ascii hsp hsafe hascii]
        show unquotePlusL ('%' :: hexDigit (c.toNat / 16) :: hexDigit (c.toNat % 16) :: r)
          = c :: unquotePlusL r
        rw [unquotePlusL_pct _ _ _ _ _ (hexVal_hexDigit _ h16) (hexVal_hexDigit _ h16'),
          Nat.div_add_mod, Char.ofNat_toNat]
      · have hplus : c ≠ '+' := by
          intro he; subst he; exact hascii (by decide)
        have hpct : c ≠ '%' := by
          intro he; subst he; exact hascii (by decide)
        rw [quotePlusChar_high hsp hsafe hascii]
        exact unquotePlusL_cons_other c r hplus hpct

theorem unquotePlusL_quotePlus_data (l : List Char) :
    unquotePlusL (l.flatMap quotePlusChar) = l := by
  induction l with
  | nil => simp [unquotePlusL, unquotePlusAux]
  | cons c cs ih => rw [List.flatMap_cons, unquotePlusL_quotePlusChar, ih]

theorem unquotePlus_quotePlus (s : String) : unquotePlus (quotePlus s) = s := by
  cases s with
  | mk data => simp [unquotePlus, quotePlus, unquotePlusL_quotePlus_data]

theorem quotePlusChar_ne_nil (c : Char) : quotePlusChar c ≠ [] := by
  by_cases hsp : c = ' '
  · subst hsp; rw [quotePlusChar_space]; simp
  · by_cases hsafe : isUrlSafe c
    · rw [quotePlusChar_safe hsp hsafe]; simp
    · by_cases hascii : c.toNat < 128
      · rw [quotePlusChar_ascii hsp hsafe hascii]; simp
      · rw [quotePlusChar_high hsp hsafe hascii]; simp

theorem quotePlus_data_ne_nil {s : String} (h : s ≠ "") : (quotePlus s).data ≠ [] := by
  cases s with
  | mk data =>
    cases data with
    | nil => exact absurd rfl h
    | cons c cs =>
      simp only [quotePlus, List.flatMap_cons]
      intro hc
      exact quotePlusChar_ne_nil c (List.append_eq_nil.mp hc).1

theorem unquotePlusL_ne_nil {l : List Char} (h : l ≠ []) : unquotePlusL l ≠ [] := by
  rcases l with _ | ⟨c, r⟩
  · exact absurd rfl h
  · by_cases h1 : c = '+'
    · subst h1; rw [unquotePlusL_cons_plus]; simp
    · by_cases h2 : c = '%'
      · subst h2
        rcases r with _ | ⟨a, _ | ⟨b, rest⟩⟩
        · simp [unquotePlusL, unquotePlusAux]
        · simp [unquotePlusL, unquotePlusAux]
        · rcases hx : hexVal a with _ | x <;> rcases hy : hexVal b with _ | y <;>
            simp [unquotePlusL, unquotePlusAux, hx, hy]
      · rw [unquotePlusL_cons_other c r h1 h2]; simp

theorem hexDigit_not_sep {n : Nat} (hn : n < 16) :
    hexDigit n ≠ '&' ∧ hexDigit n ≠ '=' ∧ hexDigit n ≠ '#' ∧ hexDigit n ≠ '?' := by
  interval_cases n <;> decide

/-- Characters emitted by `quotePlusChar` are never query-structure
separators. -/
theorem quotePlusChar_not_sep {c x : Char} (hx : x ∈ quotePlusChar c) :
    x ≠ '&' ∧ x ≠ '=' ∧ x ≠ '#' ∧ x ≠ '?' := by
  by_cases hsp : c = ' '
  · subst hsp; rw [quotePlusChar_space] at hx
    simp at hx; subst hx; decide
  · by_cases hsafe : isUrlSafe c
    · rw [quotePlusChar_safe hsp hsafe] at hx
      simp at hx; subst hx
      refine ⟨?_, ?_, ?_, ?_⟩ <;> intro he <;> subst he <;> exact absurd hsafe (by decide)
    · by_cases hascii : c.toNat < 128
      · rw [quotePlusChar_ascii hsp hsafe hascii] at hx
        have h16 : c.toNat / 16 < 16 := by omega
        have h16' : c.toNat % 16 < 16 := Nat.mod_lt _ (by omega)
        simp at hx
        rcases hx with hx | hx | hx
        · subst hx; decide
        · subst hx; exact hexDigit_not_sep h16
        · subst hx; exact hexDigit_not_sep h16'
      · rw [quotePlusChar_high hsp hsafe hascii] at hx
        simp at hx; subst hx
        refine ⟨?_, ?_, ?_, ?_⟩ <;> intro he <;> subst he <;> exact hascii (by decide)

theorem quotePlus_data_not_amp {s : String} {x : Char} (hx : x ∈ (quotePlus s).data) :
    x ≠ '&' := by
  simp only [quotePlus] at hx
  rcases List.mem_flatMap.mp hx with ⟨c, _, hmem⟩
  exact (quotePlusChar_not_sep hmem).1

theorem quotePlus_data_not_eq {s : String} {x : Char} (hx : x ∈ (quotePlus s).data) :
    x ≠ '=' := by
  simp only [quotePlus] at hx
  rcases List.mem_flatMap.mp hx with ⟨c, _, hmem⟩
  exact (quotePlusChar_not_sep hmem).2.1

/-! ## Splitting on `&` and `=` -/

theorem splitAmp_of_not_mem {f : List Char} (h : '&' ∉ f) : splitAmp f = [f] := by
  induction f with
  | nil => rfl
  | cons c cs ih =>
    have hc : c ≠ '&' := fun he => h (he ▸ List.mem_cons_self c cs)
    have hcs : '&' ∉ cs := fun hm => h (List.mem_cons_of_mem c hm)
    simp only [splitAmp, if_neg hc, ih hcs]

theorem splitAmp_append {r : List Char} : ∀ {f : List Char}, '&' ∉ f →
    splitAmp (f ++ '&' :: r) = f :: splitAmp r := by
  intro f
  induction f with
  | nil => intro _; simp [splitAmp]
  | cons c cs ih =>
    intro h
    have hc : c ≠ '&' := fun he => h (he ▸ List.mem_cons_self c cs)
    have hcs : '&' ∉ cs := fun hm => h (List.mem_cons_of_mem c hm)
    simp only [List.cons_append, splitAmp, if_neg hc]
    have hb : cs.append ('&' :: r) = cs ++ '&' :: r := rfl
    rw [hb, ih hcs]

theorem splitAmp_joinAmp :
    ∀ {fs : List (List Char)}, (∀ f ∈ fs, '&' ∉ f) → fs ≠ [] →
      splitAmp (joinAmp fs) = fs := by
  intro fs
  induction fs with
  | nil => intro _ hne; exact absurd rfl hne
  | cons f rest ih =>
    intro hmem _
    cases rest with
    | nil =>
      show splitAmp (joinAmp [f]) = [f]
      exact splitAmp_of_not_mem (hmem f (List.mem_cons_self f []))
    | cons g rest2 =>
      show splitAmp (f ++ '&' :: joinAmp (g :: rest2)) = f :: g :: rest2
      rw [splitAmp_append (hmem f (List.mem_cons_self f _))]
      rw [ih (fun x hx => hmem x (List.mem_cons_of_mem f hx)) (by simp)]

theorem splitFirstL_append_cons {c : Char} {r : List Char} : ∀ {xs : List Char}, c ∉ xs →
    splitFirstL c (xs ++ c :: r) = some (xs, r) := by
  intro xs
  induction xs with
  | nil => intro _; simp [splitFirstL]
  | cons d ds ih =>
    intro h
    have hd : d ≠ c := fun he => h (he ▸ List.mem_cons_self d ds)
    have hds : c ∉ ds := fun hm => h (List.mem_cons_of_mem d hm)
    simp only [List.cons_append, splitFirstL, if_neg hd]
    have hb : ds.append (c :: r) = ds ++ c :: r := rfl
    rw [hb, ih hds]
    rfl

/-! ## `parse_qsl` of an encoded query -/

theorem parseQsField_encoded (k v : String) (hv : v ≠ "") :
    parseQsField (urlencodeField k v) = some (k, v) := by
  have hsplit : splitFirstL '=' ((quotePlus k).data ++ '=' :: (quotePlus v).data)
      = some ((quotePlus k).data, (quotePlus v).data) :=
    splitFirstL_append_cons (fun hm => quotePlus_data_not_eq hm rfl)
  simp only [parseQsField, urlencodeField, hsplit]
  rw [if_neg (quotePlus_data_ne_nil hv)]
  have hk : String.mk (unquotePlusL (quotePlus k).data) = k := by
    have := unquotePlus_quotePlus k
    simpa [unquotePlus] using this
  have hv' : String.mk (unquotePlusL (quotePlus v).data) = v := by
    have := unquotePlus_quotePlus v
    simpa [unquotePlus] using this
  rw [hk, hv']

theorem amp_not_mem_urlencodeField (k v : String) : '&' ∉ urlencodeField k v := by
  intro hm
  simp only [urlencodeField] at hm
  rcases List.mem_append.mp hm with hm | hm
  · exact quotePlus_data_not_amp hm rfl
  · rcases List.mem_cons.mp hm with hm | hm
    · exact absurd hm.symm (by decide)
    · exact quotePlus_data_not_amp hm rfl

theorem urlencodeField_ne_nil (k v : String) : urlencodeField k v ≠ [] := by
  simp only [urlencodeField]
  intro hc
  have := List.append_eq_nil.mp hc
  exact absurd this.2 (by simp)

theorem filterMap_encodedFields (k : String) : ∀ (vs : List String),
    (∀ v ∈ vs, v ≠ "") →
    (vs.map fun v => urlencodeField k v).filterMap parseQsField
      = vs.map fun v => (k, v) := by
  intro vs
  induction vs with
  | nil => intro _; rfl
  | cons v vs ih =>
    intro h
    simp only [List.map_cons, List.filterMap_cons,
      parseQsField_encoded k v (h v (List.mem_cons_self v vs))]
    rw [ih (fun x hx => h x (List.mem_cons_of_mem v hx))]

theorem filterMap_fields : ∀ (d : List (String × List String)),
    (∀ kv ∈ d, ∀ v ∈ kv.2, v ≠ "") →
    (d.flatMap fun kv => kv.2.map fun v => urlencodeField kv.1 v).filterMap parseQsField
      = flattenPairs d := by
  intro d
  induction d with
  | nil => intro _; rfl
  | cons kv rest ih =>
    intro hwf
    simp only [List.flatMap_cons, List.filterMap_append]
    rw [filterMap_encodedFields kv.1 kv.2 (hwf kv (List.mem_cons_self kv rest)),
      ih (fun x hx => hwf x (List.mem_cons_of_mem kv hx))]
    rfl

theorem parseQsl_urlencode (d : List (String × List String))
    (hwf : ∀ kv ∈ d, kv.2 ≠ [] ∧ ∀ v ∈ kv.2, v ≠ "") :
    parseQsl (urlencode d) = flattenPairs d := by
  classical
  have hfields : ∀ f ∈ d.flatMap fun kv => kv.2.map fun v => urlencodeField kv.1 v,
      '&' ∉ f := by
    intro f hf
    rcases List.mem_flatMap.mp hf with ⟨kv, _, hmem⟩
    rcases List.mem_map.mp hmem with ⟨v, _, hvf⟩
    exact hvf ▸ amp_not_mem_urlencodeField kv.1 v
  rcases hd : (d.flatMap fun kv => kv.2.map fun v => urlencodeField kv.1 v)
    with _ | ⟨f, fs⟩
  · -- no fields at all: every value list of `d` is empty, so `d = []` by hwf
    have hdnil : d = [] := by
      cases d with
      | nil => rfl
      | cons kv rest =>
        exfalso
        rcases hwf kv (List.mem_cons_self kv rest) with ⟨hne, _⟩
        cases hv2 : kv.2 with
        | nil => exact hne hv2
        | cons v vs =>
          have hmem2 : urlencodeField kv.1 v ∈
              (kv :: rest).flatMap fun kv => kv.2.map fun v => urlencodeField kv.1 v := by
            refine List.mem_flatMap.mpr ⟨kv, List.mem_cons_self kv rest, ?_⟩
            exact List.mem_map.mpr ⟨v, by rw [hv2]; exact List.mem_cons_self v vs, rfl⟩
          rw [hd] at hmem2
          exact absurd hmem2 (List.not_mem_nil _)
    subst hdnil
    simp [parseQsl, urlencode, flattenPairs, splitAmp, parseQsField, splitFirstL, joinAmp]
  · have hne : (f :: fs : List (List Char)) ≠ [] := by simp
    have hsplit : splitAmp (joinAmp (f :: fs)) = f :: fs :=
      splitAmp_joinAmp (hd ▸ hfields) hne
    have hwf' : ∀ kv ∈ d, ∀ v ∈ kv.2, v ≠ "" := fun kv hkv => (hwf kv hkv).2
    calc parseQsl (urlencode d)
        = (splitAmp (joinAmp (f :: fs))).filterMap parseQsField := by
          simp only [parseQsl, urlencode, hd]
      _ = ((f :: fs) : List (List Char)).filterMap parseQsField := by rw [hsplit]
      _ = (d.flatMap fun kv => kv.2.map fun v =>
            urlencodeField kv.1 v).filterMap parseQsField := by rw [hd]
      _ = flattenPairs d := filterMap_fields d hwf'

/-! ## Grouping pairs into the `parse_qs` dict -/

theorem groupPairsAux_nil (f : Nat) : groupPairsAux f [] = [] := by
  cases f <;> rfl

theorem groupPairsAux_zero (ps : List (String × String)) : groupPairsAux 0 ps = [] := by
  cases ps <;> rfl

theorem groupPairsAux_congr :
    ∀ (f g : Nat) (ps : List (String × String)), ps.length ≤ f → ps.length ≤ g →
      groupPairsAux f ps = groupPairsAux g ps := by
  intro f
  induction f with
  | zero =>
    intro g ps hf _
    have h0 : ps = [] := List.length_eq_zero.mp (Nat.le_zero.mp hf)
    subst h0
    rw [groupPairsAux_nil, groupPairsAux_nil]
  | succ f ih =>
    intro g ps hf hg
    cases ps with
    | nil => rw [groupPairsAux_nil, groupPairsAux_nil]
    | cons kv rest =>
      cases g with
      | zero => simp at hg
      | succ g =>
        rcases kv with ⟨k, v⟩
        simp only [List.length_cons] at hf hg
        simp only [groupPairsAux, List.cons.injEq, true_and]
        exact ih g _ (le_trans (List.length_filter_le _ _) (by omega))
          (le_trans (List.length_filter_le _ _) (by omega))

theorem groupPairs_cons (k : String) (v : String) (ps : List (String × String)) :
    groupPairs ((k, v) :: ps) =
      (k, v :: (ps.filter (fun p => p.1 = k)).map Prod.snd) ::
        groupPairs (ps.filter (fun p => p.1 ≠ k)) := by
  simp only [groupPairs, List.length_cons, groupPairsAux, List.cons.injEq, true_and]
  exact groupPairsAux_congr _ _ _ (List.length_filter_le _ _) (Nat.le_refl _)

theorem fst_mem_flattenPairs {d : List (String × List String)} {p : String × String}
    (hp : p ∈ flattenPairs d) : p.1 ∈ d.map Prod.fst := by
  rcases List.mem_flatMap.mp hp with ⟨kv, hkv, hmem⟩
  rcases List.mem_map.mp hmem with ⟨v, _, hpv⟩
  subst hpv
  exact List.mem_map.mpr ⟨kv, hkv, rfl⟩

theorem groupPairs_flattenPairs : ∀ (d : List (String × List String)),
    (d.map Prod.fst).Nodup → (∀ kv ∈ d, kv.2 ≠ []) →
    groupPairs (flattenPairs d) = d := by
  intro d
  induction d with
  | nil => intro _ _; rfl
  | cons kv rest ih =>
    intro hnodup hne
    rcases kv with ⟨k, vs⟩
    rcases vs with _ | ⟨v, vt⟩
    · exact absurd rfl (hne (k, []) (List.mem_cons_self _ _))
    · have hcons : (k :: rest.map Prod.fst).Nodup := hnodup
      have hknotin : k ∉ rest.map Prod.fst := (List.nodup_cons.mp hcons).1
      have hnodup' : (rest.map Prod.fst).Nodup := (List.nodup_cons.mp hcons).2
      have hflat : flattenPairs ((k, v :: vt) :: rest)
          = (k, v) :: ((vt.map fun v => (k, v)) ++ flattenPairs rest) := rfl
      rw [hflat, groupPairs_cons]
      have hfilter_eq :
          ((vt.map fun v => (k, v)) ++ flattenPairs rest).filter (fun p => p.1 = k)
            = vt.map fun v => (k, v) := by
        rw [List.filter_append]
        have h1 : (vt.map fun v => (k, v)).filter (fun p => p.1 = k)
            = vt.map fun v => (k, v) := by
          apply List.filter_eq_self.mpr
          intro p hp
          rcases List.mem_map.mp hp with ⟨x, _, hpx⟩
          subst hpx
          simp
        have h2 : (flattenPairs rest).filter (fun p => p.1 = k) = [] := by
          apply List.filter_eq_nil.mpr
          intro p hp
          have := fst_mem_flattenPairs hp
          simp only [decide_eq_true_eq]
          intro he
          exact hknotin (he ▸ this)
        rw [h1, h2, List.append_nil]
      have hfilter_ne :
          ((vt.map fun v => (k, v)) ++ flattenPairs rest).filter (fun p => p.1 ≠ k)
            = flattenPairs rest := by
        rw [List.filter_append]
        have h1 : (vt.map fun v => (k, v)).filter (fun p => p.1 ≠ k) = [] := by
          apply List.filter_eq_nil.mpr
          intro p hp
          rcases List.mem_map.mp hp with ⟨x, _, hpx⟩
          subst hpx
          simp
        have h2 : (flattenPairs rest).filter (fun p => p.1 ≠ k) = flattenPairs rest := by
          apply List.filter_eq_self.mpr
          intro p hp
          have hmem := fst_mem_flattenPairs hp
          refine decide_eq_true ?_
          intro he
          exact hknotin (he ▸ hmem)
        rw [h1, h2, List.nil_append]
      rw [hfilter_eq, hfilter_ne]
      have hsnd : (vt.map fun v => (k, v)).map Prod.snd = vt := by
        rw [List.map_map]; simp
      rw [hsnd, ih hnodup' (fun x hx => hne x (List.mem_cons_of_mem _ hx))]

/-- The full `parse_qs`-after-`urlencode` round trip on well-formed
query dicts. -/
theorem parse_qs_urlencode (d : List (String × List String)) (hwf : wfQs d) :
    parse_qs (urlencode d) = d := by
  rcases hwf with ⟨hnodup, hvals⟩
  show groupPairs (parseQsl (urlencode d)) = d
  rw [parseQsl_urlencode d hvals]
  exact groupPairs_flattenPairs d hnodup (fun kv hkv => (hvals kv hkv).1)

/-! ## Well-formedness of `parse_qs` output -/

theorem groupPairsAux_keys :
    ∀ (f : Nat) (ps : List (String × String)) (k : String),
      k ∈ (groupPairsAux f ps).map Prod.fst → k ∈ ps.map Prod.fst := by
  intro f
  induction f with
  | zero => intro ps k h; rw [groupPairsAux_zero] at h; exact absurd h (by simp)
  | succ f ih =>
    intro ps k h
    cases ps with
    | nil => rw [groupPairsAux_nil] at h; exact absurd h (by simp)
    | cons kv rest =>
      rcases kv with ⟨k0, v0⟩
      simp only [groupPairsAux, List.map_cons, List.mem_cons] at h
      rcases h with h | h
      · simp [h]
      · have := ih _ _ h
        rcases List.mem_map.mp this with ⟨p, hp, hpk⟩
        have hp' : p ∈ rest := List.mem_of_mem_filter hp
        exact List.mem_cons_of_mem _ (List.mem_map.mpr ⟨p, hp', hpk⟩)

theorem groupPairsAux_keys_nodup :
    ∀ (f : Nat) (ps : List (String × String)),
      ((groupPairsAux f ps).map Prod.fst).Nodup := by
  intro f
  induction f with
  | zero => intro ps; rw [groupPairsAux_zero]; exact List.nodup_nil
  | succ f ih =>
    intro ps
    cases ps with
    | nil => rw [groupPairsAux_nil]; exact List.nodup_nil
    | cons kv rest =>
      rcases kv with ⟨k0, v0⟩
      simp only [groupPairsAux, List.map_cons]
      refine List.nodup_cons.mpr ⟨?_, ih _⟩
      intro hmem
      have := groupPairsAux_keys _ _ _ hmem
      rcases List.mem_map.mp this with ⟨p, hp, hpk⟩
      have hpred := List.of_mem_filter hp
      rw [hpk] at hpred
      simp at hpred

theorem groupPairsAux_snd_ne_nil :
    ∀ (f : Nat) (ps : List (String × String)) (kv : String × List String),
      kv ∈ groupPairsAux f ps → kv.2 ≠ [] := by
  intro f
  induction f with
  | zero => intro ps kv h; rw [groupPairsAux_zero] at h; exact absurd h (by simp)
  | succ f ih =>
    intro ps kv h
    cases ps with
    | nil => rw [groupPairsAux_nil] at h; exact absurd h (by simp)
    | cons kv0 rest =>
      rcases kv0 with ⟨k0, v0⟩
      simp only [groupPairsAux, List.mem_cons] at h
      rcases h with h | h
      · subst h; simp
      · exact ih _ _ h

theorem groupPairsAux_values :
    ∀ (f : Nat) (ps : List (String × String)) (kv : String × List String) (v : String),
      kv ∈ groupPairsAux f ps → v ∈ kv.2 → (kv.1, v) ∈ ps := by
  intro f
  induction f with
  | zero => intro ps kv v h _; rw [groupPairsAux_zero] at h; exact absurd h (by simp)
  | succ f ih =>
    intro ps kv v h hv
    cases ps with
    | nil => rw [groupPairsAux_nil] at h; exact absurd h (by simp)
    | cons kv0 rest =>
      rcases kv0 with ⟨k0, v0⟩
      simp only [groupPairsAux, List.mem_cons] at h
      rcases h with h | h
      · subst h
        simp only [List.mem_cons] at hv
        rcases hv with hv | hv
        · subst hv; exact List.mem_cons_self _ _
        · rcases List.mem_map.mp hv with ⟨p, hp, hpv⟩
          have hpk := List.of_mem_filter hp
          simp only [decide_eq_true_eq] at hpk
          have hp' : p ∈ rest := List.mem_of_mem_filter hp
          rcases p with ⟨p1, p2⟩
          simp only at hpk hpv
          subst hpk
          subst hpv
          exact List.mem_cons_of_mem _ hp'
      · have hmem := ih _ _ _ h hv
        exact List.mem_cons_of_mem _ (List.mem_of_mem_filter hmem)

theorem parseQsField_snd_ne_empty {f : List Char} {p : String × String}
    (h : parseQsField f = some p) : p.2 ≠ "" := by
  simp only [parseQsField] at h
  rcases hs : splitFirstL '=' f with _ | ⟨name, value⟩
  · rw [hs] at h; exact absurd h (by simp)
  · rw [hs] at h
    have h' : (if value = [] then (none : Option (String × String))
        else some (String.mk (unquotePlusL name), String.mk (unquotePlusL value)))
        = some p := h
    by_cases hval : value = []
    · rw [if_pos hval] at h'; exact absurd h' (by simp)
    · rw [if_neg hval] at h'
      have hp := Option.some.inj h'
      have hne : unquotePlusL value ≠ [] := unquotePlusL_ne_nil hval
      intro he
      rw [← hp] at he
      exact hne (congrArg String.data he)

theorem parseQsl_snd_ne_empty {q : String} {p : String × String}
    (hp : p ∈ parseQsl q) : p.2 ≠ "" := by
  rcases List.mem_filterMap.mp hp with ⟨f, _, hf⟩
  exact parseQsField_snd_ne_empty hf

/-- `parse_qs` output is always a well-formed query dict. -/
theorem wfQs_parse_qs (q : String) : wfQs (parse_qs q) := by
  refine ⟨groupPairsAux_keys_nodup _ _, ?_⟩
  intro kv hkv
  refine ⟨groupPairsAux_snd_ne_nil _ _ kv hkv, ?_⟩
  intro v hv
  exact parseQsl_snd_ne_empty (groupPairsAux_values _ _ kv v hkv hv)

/-! ## Python dict update and lookup -/

theorem dictGet_dictSet_self (k : String) (vs : List String) :
    ∀ (d : List (String × List String)), dictGet (dictSet d k vs) k = some vs := by
  intro d
  induction d with
  | nil => simp [dictSet, dictGet]
  | cons kv rest ih =>
    rcases kv with ⟨k0, vs0⟩
    by_cases h : k0 = k
    · subst h; simp [dictSet, dictGet]
    · simp only [dictSet, if_neg h, dictGet, ih]

theorem dictGet_dictSet_ne {k k' : String} (h : k' ≠ k) (vs : List String) :
    ∀ (d : List (String × List String)), dictGet (dictSet d k vs) k' = dictGet d k' := by
  intro d
  induction d with
  | nil =>
    show (if k = k' then some vs else none) = none
    rw [if_neg (fun he : k = k' => h he.symm)]
  | cons kv rest ih =>
    rcases kv with ⟨k0, vs0⟩
    by_cases h0 : k0 = k
    · subst h0
      simp only [dictSet, if_pos rfl, dictGet]
      rw [if_neg (fun he : k0 = k' => h he.symm), if_neg (fun he : k0 = k' => h he.symm)]
    · simp only [dictSet, if_neg h0, dictGet]
      by_cases h1 : k0 = k'
      · rw [if_pos h1, if_pos h1]
      · rw [if_neg h1, if_neg h1, ih]

theorem qsFirst_dictSet_self (d : List (String × List String)) (k v : String) :
    qsFirst (dictSet d k [v]) k = some v := by
  simp [qsFirst, dictGet_dictSet_self]

theorem qsFirst_dictSet_ne {k k' : String} (h : k' ≠ k) (d : List (String × List String))
    (vs : List String) : qsFirst (dictSet d k vs) k' = qsFirst d k' := by
  simp [qsFirst, dictGet_dictSet_ne h]

theorem dictSet_keys (k : String) (vs : List String) :
    ∀ (d : List (String × List String)),
      (dictSet d k vs).map Prod.fst =
        if k ∈ d.map Prod.fst then d.map Prod.fst else d.map Prod.fst ++ [k] := by
  intro d
  induction d with
  | nil => simp [dictSet]
  | cons kv rest ih =>
    rcases kv with ⟨k0, vs0⟩
    by_cases h : k0 = k
    · subst h; simp [dictSet]
    · simp only [dictSet, if_neg h, List.map_cons, ih]
      by_cases hm : k ∈ rest.map Prod.fst
      · rw [if_pos hm, if_pos (List.mem_cons_of_mem _ hm)]
      · have hcond : k ∉ (k0 :: rest.map Prod.fst) := by
          intro hmem
          rcases List.mem_cons.mp hmem with he | hmem2
          · exact h he.symm
          · exact hm hmem2
        rw [if_neg hm, if_neg hcond, List.cons_append]

theorem mem_dictSet {kv : String × List String} {k : String} {vs : List String} :
    ∀ {d : List (String × List String)}, kv ∈ dictSet d k vs → kv ∈ d ∨ kv.2 = vs := by
  intro d
  induction d with
  | nil => intro h; simp [dictSet] at h; subst h; simp
  | cons kv0 rest ih =>
    intro h
    rcases kv0 with ⟨k0, vs0⟩
    by_cases h0 : k0 = k
    · subst h0
      simp [dictSet] at h
      rcases h with h1 | h1
      · subst h1; simp
      · exact Or.inl (List.mem_cons_of_mem _ h1)
    · simp only [dictSet, if_neg h0, List.mem_cons] at h
      rcases h with h1 | h1
      · subst h1; exact Or.inl (List.mem_cons_self _ _)
      · rcases ih h1 with h2 | h2
        · exact Or.inl (List.mem_cons_of_mem _ h2)
        · exact Or.inr h2

/-- `dictSet` with a nonempty singleton value preserves query-dict
well-formedness. -/
theorem wfQs_dictSet {d : List (String × List String)} {k v : String}
    (hwf : wfQs d) (hv : v ≠ "") : wfQs (dictSet d k [v]) := by
  rcases hwf with ⟨hnodup, hvals⟩
  constructor
  · rw [dictSet_keys]
    by_cases hm : k ∈ d.map Prod.fst
    · rw [if_pos hm]; exact hnodup
    · rw [if_neg hm]
      refine List.Nodup.append hnodup (List.nodup_singleton k) ?_
      intro x hx hx'
      simp only [List.mem_singleton] at hx'
      subst hx'
      exact hm hx
  · intro kv hkv
    rcases mem_dictSet hkv with h | h
    · exact hvals kv h
    · rw [h]
      exact ⟨by simp, by intro x hx; simp at hx; subst hx; exact hv⟩

/-! ## `pyStr` facts -/

theorem natReprAux_ne_nil (f n : Nat) : natReprAux (f + 1) n ≠ [] := by
  simp only [natReprAux]
  split <;> simp

theorem pyStr_ne_empty (i : Int) : pyStr i ≠ "" := by
  unfold pyStr
  split
  · intro h
    have : ('-' :: natReprAux (i.natAbs + 1) i.natAbs) = [] := by
      have := congrArg String.data h
      simpa using this
    simp at this
  · intro h
    have hd : natReprAux (i.natAbs + 1) i.natAbs = [] := by
      have := congrArg String.data h
      simpa using this
    exact natReprAux_ne_nil _ _ hd

/-! ## Envelope-stripping lemmas -/

theorem dropWsL_append (ws : List Char) (h : ∀ c ∈ ws, isSpaceRe c = true) :
    ∀ rest, dropWsL (ws ++ rest) = dropWsL rest := by
  induction ws with
  | nil => intro rest; rfl
  | cons c cs ih =>
    intro rest
    have hc : isSpaceRe c = true := h c (List.mem_cons_self c cs)
    simp only [List.cons_append, dropWsL, hc, if_true]
    exact ih (fun x hx => h x (List.mem_cons_of_mem c hx)) rest

theorem dropWsL_not_space {c : Char} (rest : List Char) (h : isSpaceRe c = false) :
    dropWsL (c :: rest) = c :: rest := by
  simp [dropWsL, h]

theorem matchWhile1_while1Text (w1 w2 w3 w4 w5 : Char) (s1 s2 s3 s4 s5 s6 b : List Char)
    (hw1 : w1 = 'w' ∨ w1 = 'W') (hw2 : w2 = 'h' ∨ w2 = 'H') (hw3 : w3 = 'i' ∨ w3 = 'I')
    (hw4 : w4 = 'l' ∨ w4 = 'L') (hw5 : w5 = 'e' ∨ w5 = 'E')
    (hs1 : ∀ c ∈ s1, isSpaceRe c = true) (hs2 : ∀ c ∈ s2, isSpaceRe c = true)
    (hs3 : ∀ c ∈ s3, isSpaceRe c = true) (hs4 : ∀ c ∈ s4, isSpaceRe c = true)
    (hs5 : ∀ c ∈ s5, isSpaceRe c = true) (hs6 : ∀ c ∈ s6, isSpaceRe c = true) :
    matchWhile1 (while1Text w1 w2 w3 w4 w5 s1 s2 s3 s4 s5 s6 ++ b)
      = some (dropWsL b) := by
  rcases hw1 with rfl | rfl <;> rcases hw2 with rfl | rfl <;> rcases hw3 with rfl | rfl <;>
    rcases hw4 with rfl | rfl <;> rcases hw5 with rfl | rfl <;>
    simp [while1Text, matchWhile1, expectCaseChar, expectChar, List.cons_append,
      List.append_assoc, dropWsL_append s1 hs1, dropWsL_append s2 hs2,
      dropWsL_append s3 hs3, dropWsL_append s4 hs4, dropWsL_append s5 hs5,
      dropWsL_append s6 hs6, dropWsL, lbrace, rbrace, isSpaceRe]

theorem matchWhile1_not_w {c : Char} (t : List Char) (h1 : c ≠ 'w') (h2 : c ≠ 'W') :
    matchWhile1 (c :: t) = none := by
  simp [matchWhile1, expectCaseChar, h1, h2]

/-! # Claim theorems -/

/-- C3: for every gateway request, an upstream response with HTTP
status 401 is mapped to the token-expired error regardless of body
content (including an empty body and bodies that are not even JSON),
before any envelope stripping or body parsing — the result does not
depend on the body at all; the rendition endpoint behaves the same. -/
theorem c3_401_always_token_expired :
    (∀ body : String, make_request_decode 401 body = .error .tokenExpired) ∧
    make_request_decode 401 "" = .error .tokenExpired ∧
    make_request_decode 401 "this is not json" = .error .tokenExpired ∧
    (∀ b1 b2 : String, make_request_decode 401 b1 = make_request_decode 401 b2) ∧
    (∀ content : List Nat, get_asset_rendition_decode 401 content = .error .tokenExpired) := by
  refine ⟨fun body => rfl, rfl, rfl, fun b1 b2 => rfl, fun content => rfl⟩

/-- C4: decoding a body that consists of a `while(1){}` envelope — any
whitespace between the tokens, any letter case in `while` — followed by
a JSON text `b` hands `json.loads` exactly the same string as decoding
`b` alone, so both yield the same parsed object.  `b` is constrained as
a JSON text is: nonempty and starting with a JSON token, not with
whitespace or a `w`. -/
theorem c4_envelope_strip_invariance (w1 w2 w3 w4 w5 : Char)
    (s1 s2 s3 s4 s5 s6 : List Char) (b : String)
    (hw1 : w1 = 'w' ∨ w1 = 'W') (hw2 : w2 = 'h' ∨ w2 = 'H') (hw3 : w3 = 'i' ∨ w3 = 'I')
    (hw4 : w4 = 'l' ∨ w4 = 'L') (hw5 : w5 = 'e' ∨ w5 = 'E')
    (hs1 : ∀ c ∈ s1, isSpaceRe c = true) (hs2 : ∀ c ∈ s2, isSpaceRe c = true)
    (hs3 : ∀ c ∈ s3, isSpaceRe c = true) (hs4 : ∀ c ∈ s4, isSpaceRe c = true)
    (hs5 : ∀ c ∈ s5, isSpaceRe c = true) (hs6 : ∀ c ∈ s6, isSpaceRe c = true)
    (hhead : ∀ c t, b.data = c :: t → isSpaceRe c = false ∧ c ≠ 'w' ∧ c ≠ 'W')
    (hb : b ≠ "") :
    _process_json_response
        (String.mk (while1Text w1 w2 w3 w4 w5 s1 s2 s3 s4 s5 s6) ++ b)
      = _process_json_response b := by
  rcases hbd : b.data with _ | ⟨c, t⟩
  · exfalso
    apply hb
    cases b with
    | mk data => cases hbd; rfl
  · rcases hhead c t hbd with ⟨hcs, hcw, hcW⟩
    have hdata : (String.mk (while1Text w1 w2 w3 w4 w5 s1 s2 s3 s4 s5 s6) ++ b).data
        = while1Text w1 w2 w3 w4 w5 s1 s2 s3 s4 s5 s6 ++ b.data := by
      rw [String.data_append]
    have hne : (String.mk (while1Text w1 w2 w3 w4 w5 s1 s2 s3 s4 s5 s6) ++ b) ≠ "" := by
      intro he
      have := congrArg String.data he
      rw [hdata] at this
      simp [while1Text] at this
    have hmatch : matchWhile1
        ((String.mk (while1Text w1 w2 w3 w4 w5 s1 s2 s3 s4 s5 s6) ++ b).data)
        = some (dropWsL b.data) := by
      rw [hdata]
      exact matchWhile1_while1Text w1 w2 w3 w4 w5 s1 s2 s3 s4 s5 s6 b.data
        hw1 hw2 hw3 hw4 hw5 hs1 hs2 hs3 hs4 hs5 hs6
    have hdrop : dropWsL b.data = b.data := by
      rw [hbd]
      exact dropWsL_not_space t hcs
    have hleft : _process_json_response
        (String.mk (while1Text w1 w2 w3 w4 w5 s1 s2 s3 s4 s5 s6) ++ b) = some b := by
      rw [_process_json_response, if_neg hne]
      rw [stripWhile1, hmatch, hdrop]
    have hright : _process_json_response b = some b := by
      rw [_process_json_response, if_neg hb]
      rw [stripWhile1]
      rw [hbd, matchWhile1_not_w t hcw hcW]
    rw [hleft, hright]

/-- C4 witness: a concrete mixed-case, whitespace-bearing envelope in
front of a concrete JSON body decodes to the same string as the body
alone. -/
theorem c4_witness :
    _process_json_response
        (String.mk (while1Text 'W' 'h' 'i' 'L' 'e' [' '] [] [' '] [] [' ', ' '] [' ']) ++
          "\x7b\"resources\":[]\x7d")
      = _process_json_response "\x7b\"resources\":[]\x7d" :=
  c4_envelope_strip_invariance 'W' 'h' 'i' 'L' 'e' [' '] [] [' '] [] [' ', ' '] [' ']
    "\x7b\"resources\":[]\x7d" (Or.inr rfl) (Or.inl rfl) (Or.inl rfl) (Or.inr rfl)
    (Or.inl rfl) (by decide) (by decide) (by decide) (by decide) (by decide) (by decide)
    (by intro c t h; injection h with h1 h2; subst h1; exact ⟨rfl, by decide, by decide⟩)
    (by decide)

/-- C1 counterexample: the claim also asserts (per the spec's testable
property) that a missing-but-required state fails with `InvalidState`
before any network call.  On the code, a missing (`None`) state skips
validation entirely: with a stored AuthorizationState present, the
exchange proceeds, makes the one network call, and succeeds. -/
theorem c1_counterexample :
    get_access_token storedHandler "auth-code" none okTokenResponse
      = (.ok [("access_token", "tok")], storedHandler, 1) := rfl

/-- C1 (amended): when `state` is provided as a nonempty string that
does not equal the stored AuthorizationState, `exchangeCode` fails with
`InvalidState` and performs zero network calls; a missing state skips
the check (see the counterexample). -/
theorem c1_mismatch_rejected_before_network (self : OAuthHandler) (code s : String)
    (resp : TokenResponse) (hs : s ≠ "") (hm : self.state ≠ some s) :
    get_access_token self code (some s) resp = (.error .invalidState, self, 0) := by
  simp [get_access_token, stateMismatch, hs, hm]

/-- C1 witness: a concrete mismatching state is rejected with zero
network calls. -/
theorem c1_witness :
    get_access_token storedHandler "auth-code" (some "attacker-state") okTokenResponse
      = (.error .invalidState, storedHandler, 0) :=
  c1_mismatch_rejected_before_network storedHandler "auth-code" "attacker-state"
    okTokenResponse (by decide) (by decide)

/-- `get_access_token` never writes any attribute of the handler. -/
theorem get_access_token_handler_unchanged (self : OAuthHandler) (code : String)
    (st : Option String) (resp : TokenResponse) :
    (get_access_token self code st resp).2.1 = self := by
  unfold get_access_token
  split
  · rfl
  · split
    · rcases resp.jsonBody with _ | j <;> rfl
    · rfl

/-- C9: a successful `exchangeCode` leaves the stored AuthorizationState
unchanged — the handler is returned as it was, so a replay of the same
call still validates and succeeds identically — and only
`buildAuthorizationUrl` overwrites the state. -/
theorem c9_state_survives_exchange (self : OAuthHandler) (code : String)
    (st : Option String) (resp : TokenResponse) (nonce : String) (j : TokenJson)
    (hok : (get_access_token self code st resp).1 = .ok j) :
    (get_access_token self code st resp).2.1 = self ∧
    (get_access_token self code st resp).2.1.state = self.state ∧
    (get_access_token (get_access_token self code st resp).2.1 code st resp).1 = .ok j ∧
    ((get_authorization_url self nonce).2).state = some nonce := by
  have hh := get_access_token_handler_unchanged self code st resp
  refine ⟨hh, by rw [hh], ?_, rfl⟩
  rw [hh]
  exact hok

/-- C9 witness: a concrete successful exchange (matching state) leaves
the stored state in place and replays successfully. -/
theorem c9_witness :
    (get_access_token storedHandler "auth-code" (some "stored-nonce") okTokenResponse).2.1
        = storedHandler ∧
    (get_access_token storedHandler "auth-code" (some "stored-nonce")
        okTokenResponse).2.1.state = storedHandler.state ∧
    (get_access_token (get_access_token storedHandler "auth-code" (some "stored-nonce")
        okTokenResponse).2.1 "auth-code" (some "stored-nonce") okTokenResponse).1
        = .ok [("access_token", "tok")] ∧
    ((get_authorization_url storedHandler "fresh-nonce").2).state = some "fresh-nonce" :=
  c9_state_survives_exchange storedHandler "auth-code" (some "stored-nonce") okTokenResponse
    "fresh-nonce" [("access_token", "tok")] rfl

/-- C6 counterexample: the claim says two `getCatalog` calls always
issue exactly one upstream request.  When the first `/catalog` response
has an empty body (decoded page `None`), nothing usable is memoized
(`self.catalog` stays `None` for the `is not None` test), and the
second call issues a second request: two calls, two requests. -/
theorem c6_counterexample :
    (get_catalog clientFresh (.ok none)).2.2 +
      (get_catalog (get_catalog clientFresh (.ok none)).2.1 (.ok none)).2.2 = 2 := rfl

/-- C6 (amended): when the first call's `/catalog` response decodes to
a present catalog object, that result is memoized: the first call
issues exactly one request, and every subsequent call returns the
memoized catalog with zero further requests, whatever the network would
answer. -/
theorem c6_memoization_amended (self : LrClient) (c : CatalogV)
    (resp2 : Except LrError (Option CatalogV)) (h : self.catalog = none) :
    get_catalog self (.ok (some c)) = (.ok (some c), { catalog := some c }, 1) ∧
    (∀ resp', get_catalog { catalog := some c : LrClient } resp'
        = (.ok (some c), { catalog := some c }, 0)) ∧
    get_catalog (get_catalog self (.ok (some c))).2.1 resp2
      = (.ok (some c), { catalog := some c }, 0) := by
  have h1 : get_catalog self (.ok (some c)) = (.ok (some c), { catalog := some c }, 1) := by
    simp [get_catalog, h]
  refine ⟨h1, fun resp' => rfl, ?_⟩
  rw [h1]
  rfl

/-- C6 witness: with a fresh client and a concrete catalog response,
the second call is served from the memo with zero requests. -/
theorem c6_witness :
    get_catalog clientFresh (.ok (some catalogSample))
        = (.ok (some catalogSample), { catalog := some catalogSample }, 1) ∧
    (∀ resp', get_catalog { catalog := some catalogSample : LrClient } resp'
        = (.ok (some catalogSample), { catalog := some catalogSample }, 0)) ∧
    get_catalog (get_catalog clientFresh (.ok (some catalogSample))).2.1 (.ok none)
      = (.ok (some catalogSample), { catalog := some catalogSample }, 0) :=
  c6_memoization_amended clientFresh catalogSample (.ok none) rfl

/-- C7: `getAlbumFirstAsset` swallows every error raised inside its
lookup — whenever its body raises (catalog resolution failure, an
upstream error on either request, or any other raised error), the
result is `none`; in particular an erroring asset fetch and a failing
catalog fetch both give `none`, the same result as an empty album. -/
theorem c7_errors_swallowed :
    (∀ (self : LrClient) (catalogResp : Except LrError (Option CatalogV))
        (pageResp : Except LrError (Option PageObj)) (e : LrError),
      (firstAssetBody self catalogResp pageResp).1 = .error e →
      (get_album_first_asset self catalogResp pageResp).1 = none) ∧
    (∀ (self : LrClient) (catalogResp : Except LrError (Option CatalogV)) (e : LrError),
      (get_album_first_asset self catalogResp (.error e)).1 = none) ∧
    (∀ (self : LrClient) (pageResp : Except LrError (Option PageObj)) (e : LrError),
      (get_album_first_asset self (.error e) pageResp).1
        = if self.catalog = none then none
          else (get_album_first_asset self (.error e) pageResp).1) ∧
    (∀ (self : LrClient) (catalogResp : Except LrError (Option CatalogV)) (e : LrError),
      (get_album_first_asset self catalogResp (.error e)).1
        = (get_album_first_asset self catalogResp (.ok (some pageNoLinks))).1) := by
  have hswallow : ∀ (self : LrClient) (catalogResp : Except LrError (Option CatalogV))
      (pageResp : Except LrError (Option PageObj)) (e : LrError),
      (firstAssetBody self catalogResp pageResp).1 = .error e →
      (get_album_first_asset self catalogResp pageResp).1 = none := by
    intro self cr pr e h
    rcases hp : firstAssetBody self cr pr with ⟨res, st⟩
    rw [hp] at h
    simp only at h
    subst h
    simp [get_album_first_asset, hp]
  have herr : ∀ (self : LrClient) (catalogResp : Except LrError (Option CatalogV))
      (e : LrError), (get_album_first_asset self catalogResp (.error e)).1 = none := by
    intro self cr e
    rcases hr : resolveCatalogId self cr with ⟨r, s, n⟩
    rcases r with er | cid <;>
      simp [get_album_first_asset, firstAssetBody, hr]
  have hempty : ∀ (self : LrClient) (catalogResp : Except LrError (Option CatalogV)),
      (get_album_first_asset self catalogResp (.ok (some pageNoLinks))).1 = none := by
    intro self cr
    rcases hr : resolveCatalogId self cr with ⟨r, s, n⟩
    rcases r with er | cid <;>
      simp [get_album_first_asset, firstAssetBody, hr, pageNoLinks, pageResources]
  refine ⟨hswallow, herr, ?_, ?_⟩
  · intro self pr e
    split
    · next hnone =>
      simp [get_album_first_asset, firstAssetBody, resolveCatalogId, get_catalog, hnone]
    · rfl
  · intro self cr e
    rw [herr self cr e, hempty self cr]

/-- C7 witness: a concrete erroring asset fetch makes the body raise,
and the lookup returns `none`. -/
theorem c7_witness :
    (firstAssetBody clientFresh (.ok (some catalogSample)) (.error (.httpError 500))).1
        = .error (.httpError 500) ∧
    (get_album_first_asset clientFresh (.ok (some catalogSample))
        (.error (.httpError 500))).1 = none :=
  ⟨rfl, c7_errors_swallowed.1 clientFresh (.ok (some catalogSample))
    (.error (.httpError 500)) (.httpError 500) rfl⟩

theorem c8_loop_helper : ∀ (fuel : Nat) (acc : List ResV),
    drainLoop loopFetch fuel loopPage acc = none := by
  intro fuel
  induction fuel with
  | zero => intro acc; rfl
  | succ f ih =>
    intro acc
    have hstep : drainLoop loopFetch (f + 1) loopPage acc
        = drainLoop loopFetch f loopPage (acc ++ pageResources loopPage) := rfl
    rw [hstep]
    exact ih _

/-- C8: the eager page-draining loop does stop when no next link is
present (second conjunct), but it has no guard against an upstream that
repeats an identical cursor: against `loopFetch` — which answers every
URL with the same page pointing to the same next URL — the loop is
still running after any number of iterations (first conjunct), i.e. the
source loop never terminates on that upstream. -/
theorem c8_no_forward_progress_guard :
    (∀ fuel : Nat, _get_paged_resources loopFetch fuel "/catalogs/cat-1/albums" = none) ∧
    (∀ (fetch : String → Except LrError (Option PageObj)) (fuel : Nat) (acc : List ResV),
      drainLoop fetch fuel lastPage acc = some (.ok acc)) := by
  constructor
  · intro fuel
    show drainLoop loopFetch fuel loopPage (pageResources loopPage) = none
    exact c8_loop_helper fuel _
  · intro fetch fuel acc
    cases fuel <;> rfl

/-- C5: `getAlbumsPage` extracts the next cursor solely by parsing
`name_after` out of the resolved `links.next.href`: the spec's Zebra
example produces `some "Zebra"`; a next link without a parsable
`name_after` produces `none`; a page without a usable next link
produces `none`; and two pages agreeing on `links.next` and `base`
produce the same cursor whatever their other fields (resources, prev
link, extra keys) are. -/
theorem c5_next_cursor_extraction :
    next_name_after_of zebraPage = some "Zebra" ∧
    next_name_after_of noNameAfterPage = none ∧
    (∀ p : PageObj, linkHref (pageLinks p).next = none → next_name_after_of p = none) ∧
    (∀ p q : PageObj, (pageLinks p).next = (pageLinks q).next → pageBase p = pageBase q →
      next_name_after_of p = next_name_after_of q) := by
  refine ⟨rfl, rfl, ?_, ?_⟩
  · intro p h
    simp [next_name_after_of, h]
  · intro p q h1 h2
    simp only [next_name_after_of]
    rw [h1, h2]

/-- C5 witness: the no-next-link case at a concrete page, and the
frame property applied to two concretely different pages sharing
`links.next` and `base`. -/
theorem c5_witness :
    next_name_after_of lastPage = none ∧
    next_name_after_of zebraPage
      = next_name_after_of
          ⟨some [⟨none, [("id", "x")]⟩], zebraPage.links, zebraPage.base,
            [("updated", "now")]⟩ :=
  ⟨c5_next_cursor_extraction.2.2.1 lastPage rfl,
    c5_next_cursor_extraction.2.2.2 zebraPage
      ⟨some [⟨none, [("id", "x")]⟩], zebraPage.links, zebraPage.base,
        [("updated", "now")]⟩ rfl rfl⟩

/-- C2: with an upstream response lacking a prev link and a `pageUrl`
supplied, `getAlbumAssetsPage` parses `limit` and `offset` out of the
page URL's query (with the requested limit and 0 as defaults, see
`parseLimitOffset`) and synthesizes a previous-page URL exactly when
the parsed offset is strictly positive: the synthesized URL is the page
URL with its query rewritten so that `offset` parses back to
`max 0 (offset - limit)` and `limit` to the parsed limit; when the
offset is 0 or absent, no previous URL is produced.  Concretely,
`limit=20&offset=20` yields a previous URL with `offset=0&limit=20`,
and `offset=0` yields none. -/
theorem c2_prev_url_synthesis :
    (get_album_assets_page_result 20 (some assetsPageUrl) (some pageNoLinks)).2.2
      = some "https://lr.adobe.io/v2/catalogs/cat-1/albums/alb-1/assets?limit=20&offset=0" ∧
    (get_album_assets_page_result 20 (some assetsPageUrl0) (some pageNoLinks)).2.2
      = none ∧
    (∀ (limit : Int) (pu : String) (p : PageObj),
      linkHref (pageLinks p).prev = none → pu ≠ "" →
      (((parseLimitOffset (parse_qs (urlparse pu).query) limit).2 ≤ 0 →
          (get_album_assets_page_result limit (some pu) (some p)).2.2 = none) ∧
        (0 < (parseLimitOffset (parse_qs (urlparse pu).query) limit).2 →
          ∃ nq : String,
            (get_album_assets_page_result limit (some pu) (some p)).2.2
              = some (urlunparse { urlparse pu with query := nq }) ∧
            qsFirst (parse_qs nq) "offset"
              = some (pyStr (max 0
                  ((parseLimitOffset (parse_qs (urlparse pu).query) limit).2
                    - (parseLimitOffset (parse_qs (urlparse pu).query) limit).1))) ∧
            qsFirst (parse_qs nq) "limit"
              = some (pyStr (parseLimitOffset (parse_qs (urlparse pu).query) limit).1)))) := by
  refine ⟨rfl, rfl, ?_⟩
  intro limit pu p hprev hpu
  have hres : (get_album_assets_page_result limit (some pu) (some p)).2.2
      = computePrevUrl limit (some pu) (pageLinks p) (pageBase p) := rfl
  rw [hres]
  simp only [computePrevUrl, hprev]
  rw [if_neg hpu]
  have hwf2 : wfQs (dictSet (dictSet (parse_qs (urlparse pu).query) "offset"
      [pyStr (max 0 ((parseLimitOffset (parse_qs (urlparse pu).query) limit).2
        - (parseLimitOffset (parse_qs (urlparse pu).query) limit).1))])
      "limit" [pyStr (parseLimitOffset (parse_qs (urlparse pu).query) limit).1]) :=
    wfQs_dictSet (wfQs_dictSet (wfQs_parse_qs _) (pyStr_ne_empty _)) (pyStr_ne_empty _)
  constructor
  · intro hle
    rw [if_neg (by omega)]
  · intro hlt
    rw [if_pos hlt]
    refine ⟨_, rfl, ?_, ?_⟩
    · rw [parse_qs_urlencode _ hwf2]
      rw [qsFirst_dictSet_ne (by decide) _ _, qsFirst_dictSet_self]
    · rw [parse_qs_urlencode _ hwf2, qsFirst_dictSet_self]

/-- C2 witness: the synthesis applied at the spec's concrete page URL
(`limit=20&offset=20`, no prev link). -/
theorem c2_witness :
    ∃ nq : String,
      (get_album_assets_page_result 20 (some assetsPageUrl) (some pageNoLinks)).2.2
        = some (urlunparse { urlparse assetsPageUrl with query := nq }) ∧
      qsFirst (parse_qs nq) "offset" = some (pyStr (max 0
        ((parseLimitOffset (parse_qs (urlparse assetsPageUrl).query) 20).2
          - (parseLimitOffset (parse_qs (urlparse assetsPageUrl).query) 20).1))) ∧
      qsFirst (parse_qs nq) "limit"
        = some (pyStr (parseLimitOffset (parse_qs (urlparse assetsPageUrl).query) 20).1) :=
  (c2_prev_url_synthesis.2.2 20 assetsPageUrl pageNoLinks rfl (by decide)).2 (by decide)

/-- C10: the previous-URL synthesis is total on malformed page URLs:
when the page URL carries a `limit` or `offset` query value on which
`int()` raises `ValueError`, the `except` branch makes the limit fall
back to the requested limit and the offset to 0, and therefore no
previous URL is produced (whether or not the URL is empty). -/
theorem c10_malformed_values_default (limit : Int) (pu : String) (p : PageObj)
    (hprev : linkHref (pageLinks p).prev = none)
    (hbad : (∃ s, qsFirst (parse_qs (urlparse pu).query) "limit" = some s ∧ pyInt s = none)
          ∨ (∃ s, qsFirst (parse_qs (urlparse pu).query) "offset" = some s ∧ pyInt s = none)) :
    parseLimitOffset (parse_qs (urlparse pu).query) limit = (limit, 0) ∧
    (get_album_assets_page_result limit (some pu) (some p)).2.2 = none := by
  have hdef : parseLimitOffset (parse_qs (urlparse pu).query) limit = (limit, 0) := by
    rcases hbad with ⟨s, hqs, hbadp⟩ | ⟨s, hqs, hbadp⟩
    · simp [parseLimitOffset, hqs, hbadp]
    · rcases hql : qsFirst (parse_qs (urlparse pu).query) "limit" with _ | sl
      · simp [parseLimitOffset, hqs, hbadp, hql]
      · rcases hpl : pyInt sl with _ | l
        · simp [parseLimitOffset, hqs, hbadp, hql, hpl]
        · simp [parseLimitOffset, hqs, hbadp, hql, hpl]
  refine ⟨hdef, ?_⟩
  have hres : (get_album_assets_page_result limit (some pu) (some p)).2.2
      = computePrevUrl limit (some pu) (pageLinks p) (pageBase p) := rfl
  rw [hres]
  simp only [computePrevUrl, hprev]
  by_cases hpu : pu = ""
  · rw [if_pos hpu]
  · rw [if_neg hpu]
    rw [hdef]
    simp

/-- C10 witness: a concrete page URL with a non-integer `limit` value
falls back to the requested limit and offset 0, producing no previous
URL. -/
theorem c10_witness :
    parseLimitOffset
        (parse_qs (urlparse "https://lr.adobe.io/v2/c/assets?limit=abc&offset=30").query) 20
      = (20, 0) ∧
    (get_album_assets_page_result 20
        (some "https://lr.adobe.io/v2/c/assets?limit=abc&offset=30") (some pageNoLinks)).2.2
      = none :=
  c10_malformed_values_default 20 "https://lr.adobe.io/v2/c/assets?limit=abc&offset=30"
    pageNoLinks rfl (Or.inl ⟨"abc", rfl, rfl⟩)
